import Mathlib

/-!
# Package `logging`: a shallow embedding of `logging.go`

The package wraps the logrus library: `init` builds one logger, opens the log
file of the day, registers a fan-out `hook` and stores the shared `entry`;
`GetLogger` and `GetLoggerWithField` hand out handles; `hook.Fire` renders an
entry and writes the line to every sink.

Everything outside the package (environment, file system, clock, the sinks and
the formatter of logrus) is a parameter `Sys`: the result of each call is a
function of its arguments and of the calls made so far.  The calls themselves
are recorded, oldest first, in a trace of `Event`s.
-/

set_option autoImplicit false

namespace Logging

/-! ## Values of Go and of logrus that the package handles -/

/-- A non-nil `error` of Go: its text, and whether `os.IsExist` reports it. -/
structure Error where
  msg : String
  exist : Bool
deriving DecidableEq, Repr

/-- Modelled from the spec: `os.IsExist` belongs to the Go standard library,
which is not part of this repository.  A nil error is not reported; a non-nil
one is reported according to its kind. -/
def IsExist (err : Option Error) : Bool :=
  match err with
  | none => false
  | some e => e.exist

/-- A value passed as `interface{}`: the kinds of value a caller can attach to
a field.  `func` and `funcPtr` are values whose reflected kind is a function or
a pointer to a function. -/
inductive Value where
  | nil
  | str (s : String)
  | int (n : Int)
  | bool (b : Bool)
  | func (id : Nat)
  | funcPtr (id : Nat)
deriving DecidableEq, Repr

/-- Whether the reflected kind of the value is `Func`, or `Ptr` to a `Func`. -/
def Value.isFunc : Value → Bool
  | .func _ => true
  | .funcPtr _ => true
  | _ => false

/-- A reading of the wall clock (`time.Time` in the local zone): the calendar
date and the nanoseconds elapsed in that day. -/
structure Time where
  year : Nat
  month : Nat
  day : Nat
  nsec : Nat
deriving DecidableEq, Repr

/-- The zero `time.Time` (January 1, year 1, 00:00:00). -/
def Time.zero : Time := ⟨1, 1, 1, 0⟩

/-- Modelled from the spec: `Time.IsZero` belongs to the Go standard library,
which is not part of this repository: whether the time is the zero time. -/
def Time.IsZero (t : Time) : Bool := decide (t = Time.zero)

/-- Modelled from the spec: the number printing of `Time.Format` belongs to the
Go standard library, which is not part of this repository.  The decimal digits
of `n`, padded with zeros on the left to `width` digits. -/
def zeroPad (width n : Nat) : String :=
  String.mk (List.replicate (width - (Nat.toDigits 10 n).length) '0' ++ Nat.toDigits 10 n)

/-- Modelled from the spec: `Time.Format` belongs to the Go standard library,
which is not part of this repository.  The call `t.Format("2006-01-02")` gives
the date as `YYYY-MM-DD`: year in four digits, month and day in two, separated
by hyphens. -/
def Time.Format (t : Time) : String :=
  zeroPad 4 t.year ++ "-" ++ zeroPad 2 t.month ++ "-" ++ zeroPad 2 t.day

/-- The flags of `os.OpenFile` that the package names. -/
inductive OpenFlag where
  | O_CREATE
  | O_WRONLY
  | O_APPEND
deriving DecidableEq, Repr

/-- The nine permission bits of a Unix file mode such as `0755`. -/
structure Perm where
  ownerRead : Bool
  ownerWrite : Bool
  ownerExec : Bool
  groupRead : Bool
  groupWrite : Bool
  groupExec : Bool
  otherRead : Bool
  otherWrite : Bool
  otherExec : Bool
deriving DecidableEq, Repr

/-- The permission bits of a numeric mode (`os.FileMode` permission part). -/
def Perm.ofMode (mode : Nat) : Perm :=
  { ownerRead := mode.testBit 8, ownerWrite := mode.testBit 7, ownerExec := mode.testBit 6,
    groupRead := mode.testBit 5, groupWrite := mode.testBit 4, groupExec := mode.testBit 3,
    otherRead := mode.testBit 2, otherWrite := mode.testBit 1, otherExec := mode.testBit 0 }

/-- An `io.Writer` by identity: the file returned by `os.OpenFile` for a path
and flags, `os.Stdout`, `os.Stderr`, `io.Discard`, or any other writer. -/
inductive Writer where
  | file (name : String) (flag : List OpenFlag)
  | Stdout
  | Stderr
  | Discard
  | other (id : Nat)
deriving DecidableEq, Repr

namespace logrus

/-- Modelled from the spec: the type `logrus.Level` belongs to the logrus
library, which is not part of this repository.  The seven severities, in the
order of their numeric values (`PanicLevel` is 0, `TraceLevel` is 6). -/
inductive Level where
  | PanicLevel
  | FatalLevel
  | ErrorLevel
  | WarnLevel
  | InfoLevel
  | DebugLevel
  | TraceLevel
deriving DecidableEq, Repr

/-- Modelled from the spec: the numeric value of a `logrus.Level`, which the
threshold of a logger is compared with. -/
def Level.toNat : Level → Nat
  | .PanicLevel => 0
  | .FatalLevel => 1
  | .ErrorLevel => 2
  | .WarnLevel => 3
  | .InfoLevel => 4
  | .DebugLevel => 5
  | .TraceLevel => 6

/-- Modelled from the spec: the list `logrus.AllLevels` belongs to the logrus
library, which is not part of this repository: every severity, from panic to
trace. -/
def AllLevels : List Level :=
  [.PanicLevel, .FatalLevel, .ErrorLevel, .WarnLevel, .InfoLevel, .DebugLevel, .TraceLevel]

/-- Modelled from the spec: the type `logrus.Fields` belongs to the logrus
library, which is not part of this repository.  It is a Go
`map[string]interface{}` (one value per key), the key/value fields of an entry;
here an association list read by its first match. -/
abbrev Fields := List (String × Value)

/-- Map read `m[k]` (with the `ok` flag as the option). -/
def Fields.get (m : Fields) (k : String) : Option Value :=
  match m with
  | [] => none
  | (k1, v1) :: rest => if k1 = k then some v1 else Fields.get rest k

/-- Map write `m[k] = v`: the value of `k`, if there is one, is replaced. -/
def Fields.set (m : Fields) (k : String) (v : Value) : Fields :=
  (k, v) :: m.filter (fun p => decide (p.1 ≠ k))

/-- Modelled from the spec: the struct `logrus.Entry` belongs to the logrus
library, which is not part of this repository.  An entry has a logger, fields,
a time, a severity and a message, and the text `err` on fields that were
refused; `Logger` is the address of the `logrus.Logger` it belongs to. -/
structure Entry where
  Logger : Nat
  Data : Fields
  Time : Time
  Level : Level
  Message : String
  err : String
deriving DecidableEq, Repr

/-- Modelled from the spec: the struct `logrus.TextFormatter` belongs to the
logrus library, which is not part of this repository.  Kept are the options
that `init` sets; `CallerPrettyfier` records that the function literal of
`init` is installed. -/
structure TextFormatter where
  CallerPrettyfier : Bool
  DisableColors : Bool
  FullTimestamp : Bool
deriving DecidableEq, Repr

end logrus

/-- One call that leaves the package, with its arguments and its error result. -/
inductive Event where
  | MkdirAll (path : String) (perm : Nat) (err : Option Error)
  | OpenFile (name : String) (flag : List OpenFlag) (perm : Nat) (err : Option Error)
  | Format (entry : logrus.Entry)
  | Write (w : Writer) (p : String) (err : Option Error)
deriving DecidableEq, Repr

/-- The trace of calls made so far, oldest first. -/
abbrev Trace := List Event

/-- What the package does not define: environment, path library, clock, file
system, the formatter behind `entry.String()`, the sinks and the quoting of
`%q`.  Calls whose outcome can change over time take the trace of earlier
calls. -/
structure Sys where
  LookupEnv : String → Option String
  Join : String → String → String
  Now : Trace → Time
  MkdirAll : Trace → String → Nat → Option Error
  OpenFile : Trace → String → List OpenFlag → Nat → Option Error
  Format : logrus.Entry → Except Error String
  Write : Trace → Writer → String → Option Error
  Quote : String → String

/-- The error result of `w.Write([]byte(p))`; `io.Discard` accepts everything. -/
def Sys.writeErr (sys : Sys) (tr : Trace) (w : Writer) (p : String) : Option Error :=
  match w with
  | .Discard => none
  | _ => sys.Write tr w p

/-! ## The fan-out hook -/

/-- The struct `hook`. -/
structure hook where
  Writer : List Writer
  LogLevels : List logrus.Level
deriving DecidableEq, Repr

/-- The loop of `hook.Fire`: write `line` to each writer in turn and return at
the first error. -/
def writeAll (sys : Sys) (line : String) : List Writer → Trace → Option Error × Trace
  | [], tr => (none, tr)
  | w :: ws, tr =>
    match sys.writeErr tr w line with
    | some e => (some e, tr ++ [Event.Write w line (some e)])
    | none => writeAll sys line ws (tr ++ [Event.Write w line none])

/-- The method `hook.Fire`: render the entry with `entry.String()`, return the
error if there is one, else write the line to every writer of the hook. -/
def hook.Fire (sys : Sys) (h : hook) (entry : logrus.Entry) (tr : Trace) : Option Error × Trace :=
  match sys.Format entry with
  | .error e => (some e, tr ++ [Event.Format entry])
  | .ok line => writeAll sys line h.Writer (tr ++ [Event.Format entry])

/-- The method `hook.Levels`. -/
def hook.Levels (h : hook) : List logrus.Level := h.LogLevels

/-- The events of writing `line` with success to each writer of `ws`, in order. -/
def okWrites (line : String) (ws : List Writer) : Trace :=
  ws.map (fun w => Event.Write w line none)

/-! ## The logger of logrus and the heap -/

namespace logrus

/-- Modelled from the spec: the struct `logrus.Logger` belongs to the logrus
library, which is not part of this repository.  A logger owns its direct
output, the hooks registered per level (`LevelHooks`), the formatter, the
caller reporting and the minimum severity threshold. -/
structure Logger where
  Out : Writer
  Hooks : Level → List hook
  Formatter : TextFormatter
  ReportCaller : Bool
  Level : Level

/-- Modelled from the spec: `logrus.New` belongs to the logrus library, which is
not part of this repository.  A new logger writes to standard error, has no
hook, the default text formatter, no caller reporting and the threshold
`InfoLevel`. -/
def New : Logger :=
  { Out := Writer.Stderr, Hooks := fun _ => [],
    Formatter := { CallerPrettyfier := false, DisableColors := false, FullTimestamp := false },
    ReportCaller := false, Level := Level.InfoLevel }

/-- Modelled from the spec: `Logger.AddHook` belongs to the logrus library, which
is not part of this repository.  The hook is appended to the hooks of every
level that its `Levels()` returns, so that it is "invoked for every entry" of
those levels. -/
def Logger.AddHook (lg : logrus.Logger) (h : hook) : logrus.Logger :=
  let add : (logrus.Level → List hook) → logrus.Level → (logrus.Level → List hook) :=
    fun hooks level => fun l => if l = level then hooks l ++ [h] else hooks l
  { lg with Hooks := h.Levels.foldl add lg.Hooks }

/-- Modelled from the spec: `Logger.IsLevelEnabled` belongs to the logrus
library, which is not part of this repository.  An entry passes the "minimum
severity threshold" when its level is at most the level of the logger. -/
def Logger.IsLevelEnabled (lg : logrus.Logger) (level : logrus.Level) : Bool :=
  decide (level.toNat ≤ lg.Level.toNat)

end logrus

/-- The objects allocated so far; a pointer is an index into one of the lists. -/
structure Heap where
  loggers : List logrus.Logger
  entries : List logrus.Entry

/-- The state of the program that the package reads and writes: the heap and
the package variable `entry` (nil until `init` has run). -/
structure State where
  heap : Heap
  entry : Option Nat

/-- The struct `Logger` of the package: the embedded `*logrus.Entry`. -/
structure Logger where
  Entry : Option Nat
deriving DecidableEq, Repr

/-- The values a call can panic with: a nil pointer dereference; the two errors
that `init` builds with `fmt.Errorf`, one naming the directory `cwd` and the
error of `os.MkdirAll`, one naming `logFilename` and the error of
`os.OpenFile`; and the entry that a panic-level log call panics with. -/
inductive Panic where
  | nilDeref
  | cantCreateDir (cwd : String) (err : Option Error)
  | failedToOpen (logFilename : String) (err : Error)
  | entry (e : logrus.Entry)
deriving DecidableEq, Repr

/-- How a call ends: it returns, panics, or exits the process. -/
inductive Outcome where
  | returned
  | panicked (p : Panic)
  | exited (code : Nat)
deriving DecidableEq, Repr

namespace logrus

/-- Modelled from the spec: the copy of the fields of an entry into a new map,
as `Entry.WithFields` of the logrus library does it with the loop
`for k, v := range entry.Data { data[k] = v }`. -/
def copyData (src : Fields) : Fields :=
  src.foldr (fun p data => Fields.set data p.1 p.2) []

/-- Modelled from the spec: `Entry.WithFields` belongs to the logrus library,
which is not part of this repository.  It returns "a new logger handle derived
from the given one": a new entry whose map is a new map holding the fields of
the given entry and then the added ones, written with `data[k] = v`.  A value
that is a function or a pointer to a function is not stored; the key is named
in `err` instead. -/
def Entry.WithFields (sys : Sys) (hp : Heap) (entry : Nat) (fields : Fields) :
    Except Panic (Heap × Nat) :=
  match hp.entries[entry]? with
  | none => .error Panic.nilDeref
  | some e =>
    let acc := fields.foldl (fun (acc : Fields × String) p =>
      if p.2.isFunc then
        let tmp := "can not add field " ++ sys.Quote p.1
        (acc.1, if acc.2 ≠ "" then e.err ++ ", " ++ tmp else tmp)
      else (Fields.set acc.1 p.1 p.2, acc.2)) (copyData e.Data, e.err)
    let newEntry : Entry :=
      { Logger := e.Logger, Data := acc.1, Time := e.Time, Level := Level.PanicLevel,
        Message := "", err := acc.2 }
    .ok ({ hp with entries := hp.entries ++ [newEntry] }, hp.entries.length)

/-- Modelled from the spec: `Entry.WithField` belongs to the logrus library,
which is not part of this repository: `WithFields` with the single field `key: value`. -/
def Entry.WithField (sys : Sys) (hp : Heap) (entry : Nat) (key : String) (value : Value) :
    Except Panic (Heap × Nat) :=
  Entry.WithFields sys hp entry [(key, value)]

/-- Modelled from the spec: `NewEntry` belongs to the logrus library, which is
not part of this repository.  The new entry belongs to the logger and has an empty map. -/
def NewEntry (hp : Heap) (logger : Nat) : Heap × Nat :=
  ({ hp with entries := hp.entries ++
      [{ Logger := logger, Data := [], Time := Time.zero, Level := Level.PanicLevel,
         Message := "", err := "" }] }, hp.entries.length)

/-- Modelled from the spec: `LevelHooks.Fire` belongs to the logrus library,
which is not part of this repository.  The hooks of the level are fired in order, up to the
first that returns an error. -/
def LevelHooks.Fire (sys : Sys) : List hook → Entry → Trace → Option Error × Trace
  | [], _, tr => (none, tr)
  | h :: rest, entry, tr =>
    match h.Fire sys entry tr with
    | (some e, tr1) => (some e, tr1)
    | (none, tr1) => LevelHooks.Fire sys rest entry tr1

/-- Modelled from the spec: `Entry.fireHooks` belongs to the logrus library,
which is not part of this repository.  An error of a hook is reported on standard error and
goes no further. -/
def Entry.fireHooks (sys : Sys) (lg : logrus.Logger) (entry : logrus.Entry) (tr : Trace) : Trace :=
  match LevelHooks.Fire sys (lg.Hooks entry.Level) entry tr with
  | (none, tr1) => tr1
  | (some e, tr1) =>
    let text := "Failed to fire hook: " ++ e.msg ++ "\n"
    tr1 ++ [Event.Write Writer.Stderr text (sys.writeErr tr1 Writer.Stderr text)]

/-- Modelled from the spec: `Entry.write` belongs to the logrus library, which is
not part of this repository.  The "direct output" of the logger: the entry is formatted and
written to `Out`; failures are reported on standard error. -/
def Entry.write (sys : Sys) (lg : logrus.Logger) (entry : logrus.Entry) (tr : Trace) : Trace :=
  let tr0 := tr ++ [Event.Format entry]
  match sys.Format entry with
  | .error e =>
    let text := "Failed to obtain reader, " ++ e.msg ++ "\n"
    tr0 ++ [Event.Write Writer.Stderr text (sys.writeErr tr0 Writer.Stderr text)]
  | .ok serialized =>
    let err := sys.writeErr tr0 lg.Out serialized
    let tr1 := tr0 ++ [Event.Write lg.Out serialized err]
    match err with
    | none => tr1
    | some e =>
      let text := "Failed to write to log, " ++ e.msg ++ "\n"
      tr1 ++ [Event.Write Writer.Stderr text (sys.writeErr tr1 Writer.Stderr text)]

/-- Modelled from the spec: `Entry.Log` belongs to the logrus library, which is
not part of this repository.  A call below the threshold does nothing.  Otherwise a copy of
the entry gets the time of the call, the level and the message, is passed to
the hooks of its level and then to the direct output; at `PanicLevel` the call
then panics with the entry. -/
def Entry.Log (sys : Sys) (hp : Heap) (entry : Nat) (level : logrus.Level) (msg : String)
    (tr : Trace) : Outcome × Trace :=
  match hp.entries[entry]? with
  | none => (Outcome.panicked Panic.nilDeref, tr)
  | some e =>
    match hp.loggers[e.Logger]? with
    | none => (Outcome.panicked Panic.nilDeref, tr)
    | some lg =>
      if lg.IsLevelEnabled level then
        let newEntry : Entry :=
          { Logger := e.Logger, Data := copyData e.Data,
            Time := if e.Time.IsZero then sys.Now tr else e.Time,
            Level := level, Message := msg, err := e.err }
        let tr1 := Entry.fireHooks sys lg newEntry tr
        let tr2 := Entry.write sys lg newEntry tr1
        if level.toNat ≤ Level.PanicLevel.toNat then
          (Outcome.panicked (Panic.entry newEntry), tr2)
        else (Outcome.returned, tr2)
      else (Outcome.returned, tr)

/-- Modelled from the spec: the severity methods (`Trace`, `Debug`, `Info`,
`Warn`, `Error`, `Fatal`, `Panic`) belong to the logrus library, which is not
part of this repository.  Each is `Log` at its level; "fatal-severity calls additionally
terminate the process after logging". -/
def Entry.logCall (sys : Sys) (hp : Heap) (entry : Nat) (level : logrus.Level) (msg : String)
    (tr : Trace) : Outcome × Trace :=
  match Entry.Log sys hp entry level msg tr with
  | (Outcome.returned, tr1) =>
    if level = Level.FatalLevel then (Outcome.exited 1, tr1) else (Outcome.returned, tr1)
  | other => other

end logrus

/-! ## The package -/

/-- The constant `LOG_DIR`. -/
def LOG_DIR : String := "logs/"

/-- The constant `CWD_KEY`. -/
def CWD_KEY : String := "cwd"

/-- The function `GetLogger`: a new `Logger` around the package variable `entry`. -/
def GetLogger (st : State) : Logger := { Entry := st.entry }

/-- The method `Logger.GetLoggerWithField`: a `Logger` around `l.WithField(k, v)`.
Calling the promoted method through a nil `Entry` panics. -/
def Logger.GetLoggerWithField (sys : Sys) (st : State) (l : Logger) (k : String) (v : Value) :
    Except Panic (State × Logger) :=
  match l.Entry with
  | none => .error Panic.nilDeref
  | some a =>
    match logrus.Entry.WithField sys st.heap a k v with
    | .error p => .error p
    | .ok (hp, a1) => .ok ({ st with heap := hp }, { Entry := some a1 })

/-- The log directory that `init` computes in its variable `cwd`. -/
def logDir (sys : Sys) : String :=
  match sys.LookupEnv CWD_KEY with
  | some value => sys.Join value LOG_DIR
  | none => sys.Join "." LOG_DIR

/-- The flags `os.O_CREATE|os.O_WRONLY|os.O_APPEND` that `init` opens the file with. -/
def logFileFlag : List OpenFlag := [OpenFlag.O_CREATE, OpenFlag.O_WRONLY, OpenFlag.O_APPEND]

/-- The function `init` of the package.  The result is the panic or the new
state, together with the trace. -/
def init (sys : Sys) (st : State) (tr : Trace) : Except Panic State × Trace :=
  let l : logrus.Logger := logrus.New
  let l : logrus.Logger := { l with ReportCaller := true }
  let l : logrus.Logger :=
    { l with Formatter := { CallerPrettyfier := true, DisableColors := false,
                            FullTimestamp := true } }
  let cwd := logDir sys
  let err := sys.MkdirAll tr cwd 0o755
  let tr1 := tr ++ [Event.MkdirAll cwd 0o755 err]
  if err ≠ none || IsExist err then
    (.error (Panic.cantCreateDir cwd err), tr1)
  else
    let logFilename := (sys.Now tr1).Format ++ ".log"
    let name := sys.Join cwd logFilename
    let err := sys.OpenFile tr1 name logFileFlag 0o664
    let tr2 := tr1 ++ [Event.OpenFile name logFileFlag 0o664 err]
    match err with
    | some e => (.error (Panic.failedToOpen logFilename e), tr2)
    | none =>
      let logFile := Writer.file name logFileFlag
      let l : logrus.Logger := { l with Out := Writer.Discard }
      let l := l.AddHook { Writer := [logFile, Writer.Stdout], LogLevels := logrus.AllLevels }
      let l : logrus.Logger := { l with Level := logrus.Level.TraceLevel }
      let hp : Heap := { st.heap with loggers := st.heap.loggers ++ [l] }
      let (hp, e) := logrus.NewEntry hp st.heap.loggers.length
      (.ok { heap := hp, entry := some e }, tr2)

/-- A call of the package or of a handle that the rest of the program can make
after `init`. -/
inductive Op where
  | GetLogger
  | GetLoggerWithField (l : Logger) (k : String) (v : Value)
  | logCall (l : Logger) (level : logrus.Level) (msg : String)
deriving DecidableEq, Repr

/-- One call: how it ends, and the state and trace it leaves. -/
def step (sys : Sys) (st : State) (tr : Trace) : Op → Outcome × State × Trace
  | .GetLogger => (Outcome.returned, st, tr)
  | .GetLoggerWithField l k v =>
    match l.GetLoggerWithField sys st k v with
    | .error p => (Outcome.panicked p, st, tr)
    | .ok (st1, _) => (Outcome.returned, st1, tr)
  | .logCall l level msg =>
    match l.Entry with
    | none => (Outcome.panicked Panic.nilDeref, st, tr)
    | some a =>
      match logrus.Entry.logCall sys st.heap a level msg tr with
      | (out, tr1) => (out, st, tr1)

/-- A sequence of calls; a panic is taken to be recovered by the caller, an exit
ends the sequence. -/
def run (sys : Sys) : List Op → State → Trace → State × Trace
  | [], st, tr => (st, tr)
  | op :: ops, st, tr =>
    match step sys st tr op with
    | (Outcome.exited _, st1, tr1) => (st1, tr1)
    | (_, st1, tr1) => run sys ops st1 tr1

/-- The fields attached to a handle: the map `Data` of the entry it points to. -/
def Logger.fields (st : State) (l : Logger) : Option logrus.Fields :=
  match l.Entry with
  | none => none
  | some a => (st.heap.entries[a]?).map (fun e => e.Data)

/-- The value that a handle carries for the key `k`, if it carries one. -/
def Logger.field (st : State) (l : Logger) (k : String) : Option Value :=
  match l.fields st with
  | none => none
  | some m => m.get k

/-- The state in which nothing has been allocated and `init` has not run. -/
def State.start : State := { heap := { loggers := [], entries := [] }, entry := none }

/-- The trace once `init` has called `os.MkdirAll`. -/
def afterMkdir (sys : Sys) (tr : Trace) : Trace :=
  tr ++ [Event.MkdirAll (logDir sys) 0o755 (sys.MkdirAll tr (logDir sys) 0o755)]

/-- The name that `init` gives its variable `logFilename`. -/
def logFilename (sys : Sys) (tr : Trace) : String :=
  (sys.Now (afterMkdir sys tr)).Format ++ ".log"

/-- The path of the file that `init` opens. -/
def logFilePath (sys : Sys) (tr : Trace) : String :=
  sys.Join (logDir sys) (logFilename sys tr)

/-- The error result of the `os.OpenFile` call of `init`, were it made. -/
def openErr (sys : Sys) (tr : Trace) : Option Error :=
  sys.OpenFile (afterMkdir sys tr) (logFilePath sys tr) logFileFlag 0o664

/-- The trace once `init` has called `os.OpenFile`. -/
def afterOpen (sys : Sys) (tr : Trace) : Trace :=
  afterMkdir sys tr ++ [Event.OpenFile (logFilePath sys tr) logFileFlag 0o664 (openErr sys tr)]

/-- The hook that `init` registers. -/
def initHook (sys : Sys) (tr : Trace) : hook :=
  { Writer := [Writer.file (logFilePath sys tr) logFileFlag, Writer.Stdout],
    LogLevels := logrus.AllLevels }

/-- The logger that `init` has built when it stores the shared entry. -/
def initLogger (sys : Sys) (tr : Trace) : logrus.Logger :=
  { Out := Writer.Discard, Hooks := fun _ => [initHook sys tr],
    Formatter := { CallerPrettyfier := true, DisableColors := false, FullTimestamp := true },
    ReportCaller := true, Level := logrus.Level.TraceLevel }

/-- The shared entry as `logrus.NewEntry` makes it for the logger at `logger`. -/
def sharedEntry (logger : Nat) : logrus.Entry :=
  { Logger := logger, Data := [], Time := Time.zero, Level := logrus.Level.PanicLevel,
    Message := "", err := "" }

/-- The state that a successful `init` leaves: the logger and the shared entry
are allocated after what the heap held, and `entry` points to the shared entry. -/
def initState (sys : Sys) (st : State) (tr : Trace) : State :=
  { heap := { loggers := st.heap.loggers ++ [initLogger sys tr],
              entries := st.heap.entries ++ [sharedEntry st.heap.loggers.length] },
    entry := some st.heap.entries.length }

/-- Whether a run of `init` ended in a panic. -/
def didPanic (r : Except Panic State) : Bool :=
  match r with
  | .error _ => true
  | .ok _ => false

/-- The writer that a `Write` event is addressed to. -/
def Event.target : Event → Option Writer
  | .Write w _ _ => some w
  | _ => none

/-- The entry that a log call on the shared entry of `init` passes to the hooks:
no fields, the time of the call, the level and the message. -/
def callEntry (sys : Sys) (logger : Nat) (level : logrus.Level) (msg : String) (tr : Trace) :
    logrus.Entry :=
  { Logger := logger, Data := [], Time := sys.Now tr, Level := level, Message := msg, err := "" }

/-- The entry that a log call on the entry `e` passes to the hooks: a copy of
`e` with the level and the message of the call, and with the time of the call
when `e` has none. -/
def callEntryOf (sys : Sys) (e : logrus.Entry) (level : logrus.Level) (msg : String)
    (tr : Trace) : logrus.Entry :=
  { Logger := e.Logger, Data := logrus.copyData e.Data,
    Time := if e.Time.IsZero then sys.Now tr else e.Time,
    Level := level, Message := msg, err := e.err }

/-- The path and the text of a write to a file; nothing for other events. -/
def Event.fileWrite : Event → Option (String × String)
  | .Write (Writer.file name _) p _ => some (name, p)
  | _ => none

/-- Whether the event is a rendering of an entry. -/
def Event.isFormat : Event → Bool
  | .Format _ => true
  | _ => false

/-- Whether the event is a call of `Write` on the writer `w`. -/
def Event.isWriteTo (w : Writer) : Event → Bool
  | .Write w1 _ _ => decide (w1 = w)
  | _ => false

/-- A system for the examples: no variable `cwd`, paths joined with a slash,
the clock at 9 March 2024, a file system that accepts every call, an entry
rendered as its message, and sinks that accept every write except the writers
`other 1` (always refused) and `other 2` (refused from its second call on). -/
def demoSys : Sys :=
  { LookupEnv := fun _ => none
    Join := fun a b => a ++ "/" ++ b
    Now := fun _ => ⟨2024, 3, 9, 0⟩
    MkdirAll := fun _ _ _ => none
    OpenFile := fun _ _ _ _ => none
    Format := fun e => .ok e.Message
    Write := fun tr w _ =>
      if w = Writer.other 1 then some ⟨"refused", false⟩
      else if w = Writer.other 2 ∧ 0 < tr.countP (Event.isWriteTo w) then some ⟨"full", false⟩
      else none
    Quote := fun s => "\"" ++ s ++ "\"" }

/-- An entry for the examples. -/
def demoEntry : logrus.Entry :=
  { Logger := 0, Data := [], Time := ⟨2024, 3, 9, 0⟩, Level := logrus.Level.InfoLevel,
    Message := "started", err := "" }

/-- The state that `init` leaves when it runs first, in the system of the
examples. -/
def demoState : State :=
  match (init demoSys State.start []).1 with
  | .ok st => st
  | .error _ => State.start

/-- The handle `GetLogger().GetLoggerWithField("k", 1)` in the state of the
examples, with the state that the call leaves. -/
def demoDerived : State × Logger :=
  match (GetLogger demoState).GetLoggerWithField demoSys demoState "k" (Value.int 1) with
  | .ok r => r
  | .error _ => (demoState, GetLogger demoState)

/-- The system of the examples with a clock that passes midnight: it reads
9 March 2024 until three calls have been made and 10 March 2024 afterwards, and
an entry is rendered as its date and its message. -/
def clockSys : Sys :=
  { demoSys with
    Now := fun tr => if tr.length < 3 then ⟨2024, 3, 9, 0⟩ else ⟨2024, 3, 10, 0⟩
    Format := fun e => .ok (e.Time.Format ++ " " ++ e.Message) }

/-- The state that `init` leaves when it runs first, under that clock. -/
def clockState : State :=
  match (init clockSys State.start []).1 with
  | .ok st => st
  | .error _ => State.start

/-- The trace of a program that runs `init` on 9 March and makes one log call
on the shared handle. -/
def clockFirst : Trace :=
  (run clockSys [Op.logCall (GetLogger clockState) logrus.Level.InfoLevel "first"]
    clockState (init clockSys State.start []).2).2

/-- The trace of a program that runs `init` on 9 March and makes one log call on
the shared handle that day and one the day after. -/
def clockRun : Trace :=
  (run clockSys [Op.logCall (GetLogger clockState) logrus.Level.InfoLevel "first",
                 Op.logCall (GetLogger clockState) logrus.Level.InfoLevel "second"]
    clockState (init clockSys State.start []).2).2

/-- The system of the examples with a log file that refuses every write (a
full disk); standard output accepts every write. -/
def refusingSys : Sys :=
  { demoSys with
    Write := fun _ w _ =>
      match w with
      | Writer.file _ _ => some ⟨"no space left on device", false⟩
      | _ => none }

/-- The state that `init` leaves when it runs first, with that log file. -/
def refusingState : State :=
  match (init refusingSys State.start []).1 with
  | .ok st => st
  | .error _ => State.start

/-! ## Lemmas on the loop -/

theorem writeAll_append_ok (sys : Sys) (line : String) (pre rest : List Writer) (tr : Trace)
    (hok : ∀ j (hj : j < pre.length),
      sys.writeErr (tr ++ okWrites line (pre.take j)) (pre.get ⟨j, hj⟩) line = none) :
    writeAll sys line (pre ++ rest) tr = writeAll sys line rest (tr ++ okWrites line pre) := by
  induction pre generalizing tr with
  | nil => simp [okWrites]
  | cons w ws ih =>
    have h0 := hok 0 (by simp)
    simp [okWrites] at h0
    have hrest : ∀ j (hj : j < ws.length),
        sys.writeErr ((tr ++ [Event.Write w line none]) ++ okWrites line (ws.take j))
          (ws.get ⟨j, hj⟩) line = none := by
      intro j hj
      have := hok (j + 1) (by simpa using hj)
      simpa [okWrites] using this
    have key := ih _ hrest
    have hstep : writeAll sys line (w :: (ws ++ rest)) tr
        = writeAll sys line (ws ++ rest) (tr ++ [Event.Write w line none]) := by
      simp only [writeAll, h0]
    rw [List.cons_append, hstep, key]
    simp [okWrites]

theorem writeAll_fail (sys : Sys) (line : String) (w : Writer) (rest : List Writer) (tr : Trace)
    (e : Error) (hfail : sys.writeErr tr w line = some e) :
    writeAll sys line (w :: rest) tr = (some e, tr ++ [Event.Write w line (some e)]) := by
  simp only [writeAll, hfail]

theorem writeAll_first_failure (sys : Sys) (line : String) (pre : List Writer) (w : Writer)
    (rest : List Writer) (tr : Trace) (e : Error)
    (hok : ∀ j (hj : j < pre.length),
      sys.writeErr (tr ++ okWrites line (pre.take j)) (pre.get ⟨j, hj⟩) line = none)
    (hfail : sys.writeErr (tr ++ okWrites line pre) w line = some e) :
    writeAll sys line (pre ++ w :: rest) tr
      = (some e, tr ++ okWrites line pre ++ [Event.Write w line (some e)]) := by
  rw [writeAll_append_ok sys line pre (w :: rest) tr hok, writeAll_fail sys line w rest _ e hfail]

theorem countP_isFormat_okWrites (line : String) (ws : List Writer) :
    (okWrites line ws).countP Event.isFormat = 0 := by
  induction ws with
  | nil => rfl
  | cons w ws ih => simp [okWrites, Event.isFormat]

/-! ## Lemmas on maps and on the heap -/

theorem Fields_get_filter_ne (m : logrus.Fields) (k k1 : String) (hne : k1 ≠ k) :
    logrus.Fields.get (m.filter (fun p => decide (p.1 ≠ k))) k1 = logrus.Fields.get m k1 := by
  induction m with
  | nil => rfl
  | cons p rest ih =>
    obtain ⟨kp, vp⟩ := p
    by_cases hk : kp = k
    · have hf : List.filter (fun p => decide (p.1 ≠ k)) ((kp, vp) :: rest)
          = List.filter (fun p => decide (p.1 ≠ k)) rest := by
        rw [List.filter_cons_of_neg]
        simp [hk]
      have hne1 : ¬ kp = k1 := fun h => hne (h.symm.trans hk)
      rw [hf, ih]
      simp only [logrus.Fields.get, hne1, if_false]
    · have hf : List.filter (fun p => decide (p.1 ≠ k)) ((kp, vp) :: rest)
          = (kp, vp) :: List.filter (fun p => decide (p.1 ≠ k)) rest := by
        rw [List.filter_cons_of_pos]
        simp [hk]
      rw [hf]
      simp only [logrus.Fields.get, ih]

theorem Fields_get_set (m : logrus.Fields) (k k1 : String) (v : Value) :
    (logrus.Fields.set m k v).get k1 = if k = k1 then some v else m.get k1 := by
  by_cases hk : k = k1
  · simp [logrus.Fields.set, logrus.Fields.get, hk]
  · simp only [logrus.Fields.set, logrus.Fields.get, hk, if_false]
    exact Fields_get_filter_ne m k k1 (fun h => hk h.symm)

theorem copyData_get (m : logrus.Fields) (k : String) :
    (logrus.copyData m).get k = m.get k := by
  induction m with
  | nil => rfl
  | cons p rest ih =>
    obtain ⟨kp, vp⟩ := p
    show (logrus.Fields.set (logrus.copyData rest) kp vp).get k = _
    rw [Fields_get_set, ih]
    simp [logrus.Fields.get]

theorem WithField_ok (sys : Sys) (hp : Heap) (a : Nat) (e : logrus.Entry) (k : String)
    (v : Value) (ha : hp.entries[a]? = some e) :
    ∃ ne : logrus.Entry,
      logrus.Entry.WithField sys hp a k v
        = .ok ({ hp with entries := hp.entries ++ [ne] }, hp.entries.length) ∧
      ne.Logger = e.Logger ∧
      (v.isFunc = false → ne.Data = logrus.Fields.set (logrus.copyData e.Data) k v) ∧
      (v.isFunc = true → ne.Data = logrus.copyData e.Data) := by
  cases hv : v.isFunc <;>
    simp [logrus.Entry.WithField, logrus.Entry.WithFields, ha, hv]

theorem getElem?_append_old {α : Type} (xs ys : List α) (b : Nat) (hb : b < xs.length) :
    (xs ++ ys)[b]? = xs[b]? := by
  rw [List.getElem?_append_left hb]

theorem Log_congr (sys : Sys) (hp hp1 : Heap) (a : Nat) (level : logrus.Level) (msg : String)
    (tr : Trace) (he : hp1.entries[a]? = hp.entries[a]?) (hl : hp1.loggers = hp.loggers) :
    logrus.Entry.Log sys hp1 a level msg tr = logrus.Entry.Log sys hp a level msg tr := by
  simp only [logrus.Entry.Log, he, hl]

theorem getLoggerWithField_step (sys : Sys) (st : State) (l : Logger) (k : String) (v : Value)
    (a : Nat) (e : logrus.Entry)
    (hl : l.Entry = some a) (ha : st.heap.entries[a]? = some e) (hv : v.isFunc = false) :
    ∃ st1 l1, l.GetLoggerWithField sys st k v = .ok (st1, l1) ∧
      (∃ a1 e1, l1.Entry = some a1 ∧ st1.heap.entries[a1]? = some e1) ∧
      ∀ k1, l1.field st1 k1 = if k = k1 then some v else l.field st k1 := by
  obtain ⟨ne, hw, -, hdata, -⟩ := WithField_ok sys st.heap a e k v ha
  have hnew : (st.heap.entries ++ [ne])[st.heap.entries.length]? = some ne := by simp
  refine ⟨{ st with heap := { st.heap with entries := st.heap.entries ++ [ne] } },
    { Entry := some st.heap.entries.length }, ?_, ⟨_, ne, rfl, hnew⟩, ?_⟩
  · simp [Logger.GetLoggerWithField, hl, hw]
  · intro k1
    simp only [Logger.field, Logger.fields, hl, ha, hnew, Option.map_some']
    rw [hdata hv, Fields_get_set, copyData_get]

/-! ## Lemmas on `init` -/

theorem AddHook_AllLevels (lg : logrus.Logger) (h : hook) (hl : h.LogLevels = logrus.AllLevels)
    (hempty : lg.Hooks = fun _ => []) :
    lg.AddHook h = { lg with Hooks := fun _ => [h] } := by
  have hfun : (lg.AddHook h).Hooks = fun _ => [h] := by
    funext l
    cases l <;> simp [logrus.Logger.AddHook, hook.Levels, hl, logrus.AllLevels, hempty]
  cases lg
  simp only [logrus.Logger.AddHook] at hfun ⊢
  simp only [hfun]

theorem init_result (sys : Sys) (st : State) (tr : Trace) :
    init sys st tr =
      match sys.MkdirAll tr (logDir sys) 0o755 with
      | some e => (.error (Panic.cantCreateDir (logDir sys) (some e)), afterMkdir sys tr)
      | none =>
        match openErr sys tr with
        | some e => (.error (Panic.failedToOpen (logFilename sys tr) e), afterOpen sys tr)
        | none => (.ok (initState sys st tr), afterOpen sys tr) := by
  cases hmk : sys.MkdirAll tr (logDir sys) 0o755 with
  | some e => simp [init, hmk, afterMkdir]
  | none =>
    have hmk1 : afterMkdir sys tr = tr ++ [Event.MkdirAll (logDir sys) 0o755 none] := by
      simp [afterMkdir, hmk]
    cases hop : openErr sys tr with
    | some e =>
      have hop1 := hop
      simp only [openErr, logFilePath, logFilename, hmk1] at hop1
      simp [init, hmk, IsExist, hop1, afterOpen, hmk1, logFilename, logFilePath, hop]
    | none =>
      have hop1 := hop
      simp only [openErr, logFilePath, logFilename, hmk1] at hop1
      have hadd := AddHook_AllLevels
        { Out := Writer.Discard, Hooks := fun _ => [],
          Formatter := { CallerPrettyfier := true, DisableColors := false,
                         FullTimestamp := true },
          ReportCaller := true, Level := logrus.Level.InfoLevel }
        (initHook sys tr) rfl rfl
      simp only [initHook, logFilePath, logFilename, hmk1] at hadd
      simp [init, hmk, IsExist, hop1, afterOpen, hmk1, logFilename, logFilePath, hop,
        logrus.New, logrus.NewEntry, hadd, initState, initLogger, initHook, sharedEntry]

theorem getElem?_length_append {α : Type} (xs : List α) (y : α) (ys : List α) :
    (xs ++ y :: ys)[xs.length]? = some y := by
  rw [List.getElem?_append_right (le_refl _)]
  simp

theorem init_trace (sys : Sys) (st : State) (tr : Trace) :
    (init sys st tr).2 = tr ++
      (match sys.MkdirAll tr (logDir sys) 0o755 with
       | some e => [Event.MkdirAll (logDir sys) 0o755 (some e)]
       | none => [Event.MkdirAll (logDir sys) 0o755 none,
                  Event.OpenFile (logFilePath sys tr) logFileFlag 0o664 (openErr sys tr)]) := by
  rw [init_result]
  cases hmk : sys.MkdirAll tr (logDir sys) 0o755 with
  | some e => simp [afterMkdir, hmk]
  | none =>
    cases hop : openErr sys tr <;> simp [afterOpen, afterMkdir, hmk, hop]

theorem init_first_call (sys : Sys) (st : State) (tr : Trace) :
    (init sys st tr).2[tr.length]?
      = some (Event.MkdirAll (logDir sys) 0o755 (sys.MkdirAll tr (logDir sys) 0o755)) := by
  rw [init_trace]
  cases hmk : sys.MkdirAll tr (logDir sys) 0o755 <;> exact getElem?_length_append _ _ _

theorem init_ok_inv (sys : Sys) (st0 st : State) (tr0 tr1 : Trace)
    (hinit : init sys st0 tr0 = (.ok st, tr1)) :
    st = initState sys st0 tr0 ∧ tr1 = afterOpen sys tr0 := by
  rw [init_result] at hinit
  cases hmk : sys.MkdirAll tr0 (logDir sys) 0o755 with
  | some e => simp [hmk] at hinit
  | none =>
    cases hop : openErr sys tr0 with
    | some e => simp [hmk, hop] at hinit
    | none =>
      simp only [hmk, hop, Prod.mk.injEq, Except.ok.injEq] at hinit
      exact ⟨hinit.1.symm, hinit.2.symm⟩

/-! ## Lemmas on sequences of calls -/

theorem step_preserves (sys : Sys) (st : State) (tr : Trace) (op : Op) :
    (step sys st tr op).2.1.entry = st.entry ∧
    (step sys st tr op).2.1.heap.loggers = st.heap.loggers ∧
    ∃ es, (step sys st tr op).2.1.heap.entries = st.heap.entries ++ es := by
  cases op with
  | GetLogger => exact ⟨rfl, rfl, [], by simp [step]⟩
  | GetLoggerWithField l k v =>
    cases hl : l.Entry with
    | none => exact ⟨by simp [step, Logger.GetLoggerWithField, hl],
        by simp [step, Logger.GetLoggerWithField, hl], [],
        by simp [step, Logger.GetLoggerWithField, hl]⟩
    | some a =>
      cases ha : st.heap.entries[a]? with
      | none =>
        have hw : logrus.Entry.WithField sys st.heap a k v = .error Panic.nilDeref := by
          simp [logrus.Entry.WithField, logrus.Entry.WithFields, ha]
        exact ⟨by simp [step, Logger.GetLoggerWithField, hl, hw],
          by simp [step, Logger.GetLoggerWithField, hl, hw], [],
          by simp [step, Logger.GetLoggerWithField, hl, hw]⟩
      | some e =>
        obtain ⟨ne, hw, -⟩ := WithField_ok sys st.heap a e k v ha
        exact ⟨by simp [step, Logger.GetLoggerWithField, hl, hw],
          by simp [step, Logger.GetLoggerWithField, hl, hw], [ne],
          by simp [step, Logger.GetLoggerWithField, hl, hw]⟩
  | logCall l level msg =>
    cases hl : l.Entry with
    | none => exact ⟨by simp [step, hl], by simp [step, hl], [], by simp [step, hl]⟩
    | some a => exact ⟨by simp [step, hl], by simp [step, hl], [], by simp [step, hl]⟩

theorem run_preserves (sys : Sys) (ops : List Op) (st : State) (tr : Trace) :
    (run sys ops st tr).1.entry = st.entry ∧
    (run sys ops st tr).1.heap.loggers = st.heap.loggers ∧
    ∃ es, (run sys ops st tr).1.heap.entries = st.heap.entries ++ es := by
  induction ops generalizing st tr with
  | nil => exact ⟨rfl, rfl, [], by simp [run]⟩
  | cons op ops ih =>
    obtain ⟨h1, h2, es, h3⟩ := step_preserves sys st tr op
    rcases hstep : step sys st tr op with ⟨out, st1, tr1⟩
    rw [hstep] at h1 h2 h3
    simp only at h1 h2 h3
    cases out with
    | exited code =>
      simp only [run, hstep]
      exact ⟨h1, h2, es, h3⟩
    | returned =>
      simp only [run, hstep]
      obtain ⟨i1, i2, es1, i3⟩ := ih st1 tr1
      exact ⟨i1.trans h1, i2.trans h2, es ++ es1, by rw [i3, h3, List.append_assoc]⟩
    | panicked p =>
      simp only [run, hstep]
      obtain ⟨i1, i2, es1, i3⟩ := ih st1 tr1
      exact ⟨i1.trans h1, i2.trans h2, es ++ es1, by rw [i3, h3, List.append_assoc]⟩

theorem run_keeps_shared (sys : Sys) (st0 : State) (tr0 : Trace) (ops : List Op) (tr : Trace) :
    (run sys ops (initState sys st0 tr0) tr).1.entry = some st0.heap.entries.length ∧
    (run sys ops (initState sys st0 tr0) tr).1.heap.entries[st0.heap.entries.length]?
      = some (sharedEntry st0.heap.loggers.length) ∧
    (run sys ops (initState sys st0 tr0) tr).1.heap.loggers[st0.heap.loggers.length]?
      = some (initLogger sys tr0) := by
  obtain ⟨h1, h2, es, h3⟩ := run_preserves sys ops (initState sys st0 tr0) tr
  refine ⟨h1, ?_, ?_⟩
  · rw [h3]
    simp only [initState, List.append_assoc, List.singleton_append]
    exact getElem?_length_append _ _ _
  · rw [h2]
    simp only [initState]
    exact getElem?_length_append _ _ _

/-! ## Lemmas on log calls on the shared entry -/

theorem belonging_Log (sys : Sys) (hp : Heap) (a : Nat) (e : logrus.Entry) (tr0 : Trace)
    (level : logrus.Level) (msg : String) (tr : Trace)
    (he : hp.entries[a]? = some e)
    (hlg : hp.loggers[e.Logger]? = some (initLogger sys tr0)) :
    logrus.Entry.Log sys hp a level msg tr =
      (if level = logrus.Level.PanicLevel
        then Outcome.panicked (Panic.entry (callEntryOf sys e level msg tr))
        else Outcome.returned,
       logrus.Entry.write sys (initLogger sys tr0) (callEntryOf sys e level msg tr)
        (logrus.Entry.fireHooks sys (initLogger sys tr0) (callEntryOf sys e level msg tr) tr)) := by
  cases level <;>
    simp [logrus.Entry.Log, he, hlg, logrus.Logger.IsLevelEnabled, initLogger,
      logrus.Level.toNat, callEntryOf]

theorem shared_Log (sys : Sys) (hp : Heap) (a logger : Nat) (tr0 : Trace)
    (level : logrus.Level) (msg : String) (tr : Trace)
    (he : hp.entries[a]? = some (sharedEntry logger))
    (hlg : hp.loggers[logger]? = some (initLogger sys tr0)) :
    logrus.Entry.Log sys hp a level msg tr =
      (if level = logrus.Level.PanicLevel
        then Outcome.panicked (Panic.entry (callEntry sys logger level msg tr))
        else Outcome.returned,
       logrus.Entry.write sys (initLogger sys tr0) (callEntry sys logger level msg tr)
        (logrus.Entry.fireHooks sys (initLogger sys tr0) (callEntry sys logger level msg tr) tr)) := by
  have hz : Time.zero.IsZero = true := by decide
  cases level <;>
    simp [logrus.Entry.Log, he, hlg, logrus.Logger.IsLevelEnabled, initLogger,
      logrus.Level.toNat, logrus.copyData, hz, callEntry, sharedEntry]

theorem logCall_trace (sys : Sys) (hp : Heap) (a : Nat) (level : logrus.Level) (msg : String)
    (tr : Trace) :
    (logrus.Entry.logCall sys hp a level msg tr).2 = (logrus.Entry.Log sys hp a level msg tr).2 := by
  unfold logrus.Entry.logCall
  rcases hlog : logrus.Entry.Log sys hp a level msg tr with ⟨out, tr1⟩
  cases out with
  | returned => by_cases hlv : level = logrus.Level.FatalLevel <;> simp [hlv]
  | panicked p => rfl
  | exited c => rfl

theorem shared_trace_ok (sys : Sys) (tr0 : Trace) (ne : logrus.Entry) (tr : Trace)
    (line : String) (hfmt : sys.Format ne = .ok line)
    (hfile : sys.Write (tr ++ [Event.Format ne])
      (Writer.file (logFilePath sys tr0) logFileFlag) line = none)
    (hout : sys.Write (tr ++ [Event.Format ne,
      Event.Write (Writer.file (logFilePath sys tr0) logFileFlag) line none])
      Writer.Stdout line = none) :
    logrus.Entry.write sys (initLogger sys tr0) ne
        (logrus.Entry.fireHooks sys (initLogger sys tr0) ne tr) =
      tr ++ [Event.Format ne,
        Event.Write (Writer.file (logFilePath sys tr0) logFileFlag) line none,
        Event.Write Writer.Stdout line none,
        Event.Format ne,
        Event.Write Writer.Discard line none] := by
  simp [logrus.Entry.write, logrus.Entry.fireHooks, logrus.LevelHooks.Fire, hook.Fire,
    writeAll, initLogger, initHook, hfmt, Sys.writeErr, hfile, hout]

theorem getElem?_length_succ_append {α : Type} (xs : List α) (y z : α) (ys : List α) :
    (xs ++ y :: z :: ys)[xs.length + 1]? = some z := by
  rw [List.getElem?_append_right (Nat.le_add_right _ _)]
  simp

theorem shared_trace_targets (sys : Sys) (tr0 : Trace) (ne : logrus.Entry) (tr : Trace) :
    (∀ ev ∈ (logrus.Entry.write sys (initLogger sys tr0) ne
        (logrus.Entry.fireHooks sys (initLogger sys tr0) ne tr)).drop tr.length,
      ∀ name flag, ev.target = some (Writer.file name flag) → name = logFilePath sys tr0) ∧
    (∀ line, sys.Format ne = .ok line →
      (logrus.Entry.write sys (initLogger sys tr0) ne
        (logrus.Entry.fireHooks sys (initLogger sys tr0) ne tr))[tr.length + 1]?
        = some (Event.Write (Writer.file (logFilePath sys tr0) logFileFlag) line
            (sys.Write (tr ++ [Event.Format ne])
              (Writer.file (logFilePath sys tr0) logFileFlag) line))) := by
  cases hfmt : sys.Format ne with
  | error e =>
    simp [logrus.Entry.write, logrus.Entry.fireHooks, logrus.LevelHooks.Fire, hook.Fire,
      initLogger, initHook, hfmt, Sys.writeErr, Event.target]
  | ok line =>
    have hshape : ∃ rest, logrus.Entry.write sys (initLogger sys tr0) ne
        (logrus.Entry.fireHooks sys (initLogger sys tr0) ne tr) =
        tr ++ Event.Format ne :: Event.Write (Writer.file (logFilePath sys tr0) logFileFlag) line
          (sys.Write (tr ++ [Event.Format ne])
            (Writer.file (logFilePath sys tr0) logFileFlag) line) :: rest ∧
        ∀ ev ∈ rest, ∀ name flag, ev.target ≠ some (Writer.file name flag) := by
      cases hfile : sys.Write (tr ++ [Event.Format ne])
          (Writer.file (logFilePath sys tr0) logFileFlag) line with
      | some e1 =>
        refine ⟨[Event.Write Writer.Stderr ("Failed to fire hook: " ++ e1.msg ++ "\n")
            (sys.Write (tr ++ [Event.Format ne,
              Event.Write (Writer.file (logFilePath sys tr0) logFileFlag) line (some e1)])
              Writer.Stderr ("Failed to fire hook: " ++ e1.msg ++ "\n")),
            Event.Format ne, Event.Write Writer.Discard line none], ?_, ?_⟩
        · simp [logrus.Entry.write, logrus.Entry.fireHooks, logrus.LevelHooks.Fire, hook.Fire,
            writeAll, initLogger, initHook, hfmt, Sys.writeErr, hfile]
        · simp [Event.target]
      | none =>
        cases hout : sys.Write (tr ++ [Event.Format ne,
            Event.Write (Writer.file (logFilePath sys tr0) logFileFlag) line none])
            Writer.Stdout line with
        | some e2 =>
          refine ⟨[Event.Write Writer.Stdout line (some e2),
              Event.Write Writer.Stderr ("Failed to fire hook: " ++ e2.msg ++ "\n")
                (sys.Write (tr ++ [Event.Format ne,
                  Event.Write (Writer.file (logFilePath sys tr0) logFileFlag) line none,
                  Event.Write Writer.Stdout line (some e2)])
                  Writer.Stderr ("Failed to fire hook: " ++ e2.msg ++ "\n")),
              Event.Format ne, Event.Write Writer.Discard line none], ?_, ?_⟩
          · simp [logrus.Entry.write, logrus.Entry.fireHooks, logrus.LevelHooks.Fire,
              hook.Fire, writeAll, initLogger, initHook, hfmt, Sys.writeErr, hfile, hout]
          · simp [Event.target]
        | none =>
          refine ⟨[Event.Write Writer.Stdout line none, Event.Format ne,
              Event.Write Writer.Discard line none], ?_, ?_⟩
          · simp [logrus.Entry.write, logrus.Entry.fireHooks, logrus.LevelHooks.Fire,
              hook.Fire, writeAll, initLogger, initHook, hfmt, Sys.writeErr, hfile, hout]
          · simp [Event.target]
    obtain ⟨rest, hrest, htargets⟩ := hshape
    rw [hrest]
    refine ⟨?_, ?_⟩
    · intro ev hev name flag htarget
      rw [List.drop_left] at hev
      rcases List.mem_cons.mp hev with h1 | h1
      · subst h1
        simp [Event.target] at htarget
      · rcases List.mem_cons.mp h1 with h2 | h2
        · subst h2
          simp only [Event.target, Option.some.injEq, Writer.file.injEq] at htarget
          exact htarget.1.symm
        · exact absurd htarget (htargets ev h2 name flag)
    · intro line1 hline1
      cases hline1
      exact getElem?_length_succ_append _ _ _ _

theorem shared_trace_cases (sys : Sys) (tr0 : Trace) (ne : logrus.Entry) (tr : Trace) :
    (∃ t1 r1 t2 r2,
      logrus.Entry.write sys (initLogger sys tr0) ne
          (logrus.Entry.fireHooks sys (initLogger sys tr0) ne tr) =
        tr ++ [Event.Format ne, Event.Write Writer.Stderr t1 r1,
          Event.Format ne, Event.Write Writer.Stderr t2 r2]) ∨
    (∃ line e1 t r,
      logrus.Entry.write sys (initLogger sys tr0) ne
          (logrus.Entry.fireHooks sys (initLogger sys tr0) ne tr) =
        tr ++ [Event.Format ne,
          Event.Write (Writer.file (logFilePath sys tr0) logFileFlag) line (some e1),
          Event.Write Writer.Stderr t r,
          Event.Format ne, Event.Write Writer.Discard line none]) ∨
    (∃ line e2 t r,
      logrus.Entry.write sys (initLogger sys tr0) ne
          (logrus.Entry.fireHooks sys (initLogger sys tr0) ne tr) =
        tr ++ [Event.Format ne,
          Event.Write (Writer.file (logFilePath sys tr0) logFileFlag) line none,
          Event.Write Writer.Stdout line (some e2),
          Event.Write Writer.Stderr t r,
          Event.Format ne, Event.Write Writer.Discard line none]) ∨
    (∃ line,
      logrus.Entry.write sys (initLogger sys tr0) ne
          (logrus.Entry.fireHooks sys (initLogger sys tr0) ne tr) =
        tr ++ [Event.Format ne,
          Event.Write (Writer.file (logFilePath sys tr0) logFileFlag) line none,
          Event.Write Writer.Stdout line none,
          Event.Format ne, Event.Write Writer.Discard line none]) := by
  cases hfmt : sys.Format ne with
  | error e =>
    refine Or.inl ⟨"Failed to fire hook: " ++ e.msg ++ "\n",
      sys.Write (tr ++ [Event.Format ne]) Writer.Stderr ("Failed to fire hook: " ++ e.msg ++ "\n"),
      "Failed to obtain reader, " ++ e.msg ++ "\n",
      sys.Write (tr ++ [Event.Format ne,
        Event.Write Writer.Stderr ("Failed to fire hook: " ++ e.msg ++ "\n")
          (sys.Write (tr ++ [Event.Format ne]) Writer.Stderr
            ("Failed to fire hook: " ++ e.msg ++ "\n")),
        Event.Format ne]) Writer.Stderr ("Failed to obtain reader, " ++ e.msg ++ "\n"), ?_⟩
    simp [logrus.Entry.write, logrus.Entry.fireHooks, logrus.LevelHooks.Fire, hook.Fire,
      initLogger, initHook, hfmt, Sys.writeErr]
  | ok line =>
    cases hfile : sys.Write (tr ++ [Event.Format ne])
        (Writer.file (logFilePath sys tr0) logFileFlag) line with
    | some e1 =>
      refine Or.inr (Or.inl ⟨line, e1, "Failed to fire hook: " ++ e1.msg ++ "\n",
        sys.Write (tr ++ [Event.Format ne,
          Event.Write (Writer.file (logFilePath sys tr0) logFileFlag) line (some e1)])
          Writer.Stderr ("Failed to fire hook: " ++ e1.msg ++ "\n"), ?_⟩)
      simp [logrus.Entry.write, logrus.Entry.fireHooks, logrus.LevelHooks.Fire, hook.Fire,
        writeAll, initLogger, initHook, hfmt, Sys.writeErr, hfile]
    | none =>
      cases hout : sys.Write (tr ++ [Event.Format ne,
          Event.Write (Writer.file (logFilePath sys tr0) logFileFlag) line none])
          Writer.Stdout line with
      | some e2 =>
        refine Or.inr (Or.inr (Or.inl ⟨line, e2, "Failed to fire hook: " ++ e2.msg ++ "\n",
          sys.Write (tr ++ [Event.Format ne,
            Event.Write (Writer.file (logFilePath sys tr0) logFileFlag) line none,
            Event.Write Writer.Stdout line (some e2)])
            Writer.Stderr ("Failed to fire hook: " ++ e2.msg ++ "\n"), ?_⟩))
        simp [logrus.Entry.write, logrus.Entry.fireHooks, logrus.LevelHooks.Fire, hook.Fire,
          writeAll, initLogger, initHook, hfmt, Sys.writeErr, hfile, hout]
      | none =>
        refine Or.inr (Or.inr (Or.inr ⟨line, ?_⟩))
        simp [logrus.Entry.write, logrus.Entry.fireHooks, logrus.LevelHooks.Fire, hook.Fire,
          writeAll, initLogger, initHook, hfmt, Sys.writeErr, hfile, hout]

theorem shared_trace_counts (sys : Sys) (tr0 : Trace) (ne : logrus.Entry) (tr : Trace) :
    (logrus.Entry.write sys (initLogger sys tr0) ne
        (logrus.Entry.fireHooks sys (initLogger sys tr0) ne tr))[tr.length]?
      = some (Event.Format ne) ∧
    ((logrus.Entry.write sys (initLogger sys tr0) ne
        (logrus.Entry.fireHooks sys (initLogger sys tr0) ne tr)).drop tr.length).countP
      (Event.isWriteTo (Writer.file (logFilePath sys tr0) logFileFlag)) ≤ 1 ∧
    ((logrus.Entry.write sys (initLogger sys tr0) ne
        (logrus.Entry.fireHooks sys (initLogger sys tr0) ne tr)).drop tr.length).countP
      (Event.isWriteTo Writer.Stdout) ≤ 1 := by
  rcases shared_trace_cases sys tr0 ne tr with
    ⟨t1, r1, t2, r2, h⟩ | ⟨line, e1, t, r, h⟩ | ⟨line, e2, t, r, h⟩ | ⟨line, h⟩ <;>
  · rw [h]
    refine ⟨getElem?_length_append _ _ _, ?_, ?_⟩ <;>
      simp [List.countP_cons, Event.isWriteTo]

/-! ## The fan-out: `hook.Fire` -/

/-- C1: when `entry.String()` succeeds with `line` and every write that `Fire`
makes succeeds, `Fire` returns no error and adds to the trace exactly one
rendering of the entry followed by one write of `line` to each writer of
`h.Writer`, in the order of the list. -/
theorem fire_writes_line_to_every_sink (sys : Sys) (h : hook) (entry : logrus.Entry)
    (tr : Trace) (line : String)
    (hfmt : sys.Format entry = .ok line)
    (hok : ∀ i (hi : i < h.Writer.length),
      sys.writeErr (tr ++ Event.Format entry :: okWrites line (h.Writer.take i))
        (h.Writer.get ⟨i, hi⟩) line = none) :
    h.Fire sys entry tr = (none, tr ++ Event.Format entry :: okWrites line h.Writer) ∧
    ((h.Fire sys entry tr).2.drop tr.length).countP Event.isFormat = 1 := by
  have hrun : h.Fire sys entry tr = (none, tr ++ Event.Format entry :: okWrites line h.Writer) := by
    have hok1 : ∀ i (hi : i < h.Writer.length),
        sys.writeErr ((tr ++ [Event.Format entry]) ++ okWrites line (h.Writer.take i))
          (h.Writer.get ⟨i, hi⟩) line = none := by
      intro i hi
      simpa using hok i hi
    have key := writeAll_append_ok sys line h.Writer [] (tr ++ [Event.Format entry]) hok1
    simp only [hook.Fire, hfmt]
    rw [List.append_nil] at key
    rw [key]
    simp [writeAll]
  refine ⟨hrun, ?_⟩
  rw [hrun]
  simp [Event.isFormat, countP_isFormat_okWrites]

/-- Witness of C1 on the sinks `other 7`, standard output, `other 7`. -/
theorem fire_writes_line_to_every_sink_witness :
    hook.Fire demoSys ⟨[Writer.other 7, Writer.Stdout, Writer.other 7], []⟩ demoEntry []
      = (none, [Event.Format demoEntry, Event.Write (Writer.other 7) "started" none,
          Event.Write Writer.Stdout "started" none,
          Event.Write (Writer.other 7) "started" none]) :=
  (fire_writes_line_to_every_sink demoSys ⟨[Writer.other 7, Writer.Stdout, Writer.other 7], []⟩
    demoEntry [] "started" rfl (by decide)).1

/-- C2: when `entry.String()` succeeds with `line`, the writes to the writers
before index `i` succeed and the write to the writer at index `i` fails with
`e`, `Fire` returns the error `e` as its result; the trace gains the rendering,
one write of `line` to each writer before `i`, the failed write to writer `i`,
and nothing for the writers after `i`. -/
theorem fire_stops_at_first_failure (sys : Sys) (h : hook) (entry : logrus.Entry)
    (tr : Trace) (line : String) (i : Nat) (hi : i < h.Writer.length) (e : Error)
    (hfmt : sys.Format entry = .ok line)
    (hbefore : ∀ j (hj : j < i),
      sys.writeErr (tr ++ Event.Format entry :: okWrites line (h.Writer.take j))
        (h.Writer.get ⟨j, Nat.lt_trans hj hi⟩) line = none)
    (hfail : sys.writeErr (tr ++ Event.Format entry :: okWrites line (h.Writer.take i))
        (h.Writer.get ⟨i, hi⟩) line = some e) :
    h.Fire sys entry tr =
      (some e, tr ++ Event.Format entry :: okWrites line (h.Writer.take i)
        ++ [Event.Write (h.Writer.get ⟨i, hi⟩) line (some e)]) := by
  have hsplit : h.Writer.take i ++ h.Writer.get ⟨i, hi⟩ :: h.Writer.drop (i + 1) = h.Writer := by
    rw [List.get_eq_getElem, ← List.drop_eq_getElem_cons hi, List.take_append_drop]
  have hlen : (h.Writer.take i).length = i := by
    rw [List.length_take]; omega
  have hok1 : ∀ j (hj : j < (h.Writer.take i).length),
      sys.writeErr ((tr ++ [Event.Format entry]) ++ okWrites line ((h.Writer.take i).take j))
        ((h.Writer.take i).get ⟨j, hj⟩) line = none := by
    intro j hj
    have hj1 : j < i := by omega
    have := hbefore j hj1
    have htake : (h.Writer.take i).take j = h.Writer.take j := by
      rw [List.take_take, min_eq_left (le_of_lt hj1)]
    rw [htake]
    simpa [List.getElem_take] using this
  have hfail1 : sys.writeErr ((tr ++ [Event.Format entry]) ++ okWrites line (h.Writer.take i))
      (h.Writer.get ⟨i, hi⟩) line = some e := by
    simpa using hfail
  have key := writeAll_first_failure sys line (h.Writer.take i) (h.Writer.get ⟨i, hi⟩)
    (h.Writer.drop (i + 1)) (tr ++ [Event.Format entry]) e hok1 hfail1
  rw [hsplit] at key
  simp only [hook.Fire, hfmt]
  rw [key]
  simp

/-- Witness of C2: the sink `other 2` is listed twice and refuses its second
write, so the sink listed after it gets nothing. -/
theorem fire_stops_at_first_failure_witness :
    hook.Fire demoSys ⟨[Writer.Stdout, Writer.other 2, Writer.other 2, Writer.other 7], []⟩
        demoEntry []
      = (some ⟨"full", false⟩, [Event.Format demoEntry,
          Event.Write Writer.Stdout "started" none,
          Event.Write (Writer.other 2) "started" none,
          Event.Write (Writer.other 2) "started" (some ⟨"full", false⟩)]) :=
  fire_stops_at_first_failure demoSys
    ⟨[Writer.Stdout, Writer.other 2, Writer.other 2, Writer.other 7], []⟩
    demoEntry [] "started" 2 (by decide) ⟨"full", false⟩ rfl (by decide) (by decide)

/-! ## Derived handles: `GetLoggerWithField` -/

/-- C3: on a handle `l` that points to an entry, `GetLoggerWithField(k, v)`
returns, and leaves `l` as it was: the package variable, the loggers and every
entry allocated before the call are unchanged, so `l` has the same fields after
the call as before (it carries `k=v` after the call only if it did before), and
a later log call on `l` does the same as it would have done before. -/
theorem getLoggerWithField_does_not_mutate (sys : Sys) (st : State) (l : Logger) (k : String)
    (v : Value) (a : Nat) (e : logrus.Entry)
    (hl : l.Entry = some a) (ha : st.heap.entries[a]? = some e) :
    ∃ st1 l1, l.GetLoggerWithField sys st k v = .ok (st1, l1) ∧
      st1.entry = st.entry ∧ st1.heap.loggers = st.heap.loggers ∧
      (∀ b, b < st.heap.entries.length → st1.heap.entries[b]? = st.heap.entries[b]?) ∧
      l.fields st1 = l.fields st ∧
      (l.field st1 k = some v → l.field st k = some v) ∧
      (∀ level msg tr, logrus.Entry.Log sys st1.heap a level msg tr
        = logrus.Entry.Log sys st.heap a level msg tr) := by
  obtain ⟨ne, hw, -, -, -⟩ := WithField_ok sys st.heap a e k v ha
  have hlt : a < st.heap.entries.length := by
    by_contra hge
    rw [List.getElem?_eq_none (by omega)] at ha
    cases ha
  have hsame : (st.heap.entries ++ [ne])[a]? = st.heap.entries[a]? :=
    getElem?_append_old _ _ a hlt
  refine ⟨{ st with heap := { st.heap with entries := st.heap.entries ++ [ne] } },
    { Entry := some st.heap.entries.length }, ?_, rfl, rfl, ?_, ?_, ?_, ?_⟩
  · simp [Logger.GetLoggerWithField, hl, hw]
  · intro b hb
    exact getElem?_append_old _ _ b hb
  · simp only [Logger.fields, hl, hsame]
  · intro h
    simpa only [Logger.field, Logger.fields, hl, hsame] using h
  · intro level msg tr
    exact Log_congr sys _ _ a level msg tr hsame rfl

/-- Witness of C3: deriving a handle with the field `request` from the shared
handle of the example state. -/
theorem getLoggerWithField_does_not_mutate_witness :
    ∃ st1 l1, (GetLogger demoState).GetLoggerWithField demoSys demoState "request"
        (Value.str "r-17") = .ok (st1, l1) ∧
      (GetLogger demoState).fields st1 = (GetLogger demoState).fields demoState :=
  match getLoggerWithField_does_not_mutate demoSys demoState (GetLogger demoState) "request"
      (Value.str "r-17") 0 (sharedEntry 0) rfl rfl with
  | ⟨st1, l1, h1, _, _, _, h5, _⟩ => ⟨st1, l1, h1, h5⟩

/-- C4, as stated, fails in two ways.  The handle `demoDerived` carries `k=1`;
deriving from it with `k=2` gives a handle that carries `k=2` and no longer
`k=1`, so not all the fields of the original.  And deriving with a function
value under the key `f` gives a handle that carries nothing for `f`. -/
theorem derived_handle_replaces_field :
    demoDerived.2.field demoDerived.1 "k" = some (Value.int 1) ∧
    (∃ st1 l1, demoDerived.2.GetLoggerWithField demoSys demoDerived.1 "k" (Value.int 2)
        = .ok (st1, l1) ∧ l1.field st1 "k" = some (Value.int 2) ∧
        l1.field st1 "k" ≠ some (Value.int 1)) ∧
    (∃ st1 l1, demoDerived.2.GetLoggerWithField demoSys demoDerived.1 "f" (Value.func 0)
        = .ok (st1, l1) ∧ l1.field st1 "f" = none) :=
  ⟨by decide, ⟨_, _, rfl, by decide, by decide⟩, ⟨_, _, rfl, by decide⟩⟩

/-- C4, amended: for a value `v` that is not a function or a pointer to a
function, the handle returned by `l.GetLoggerWithField(k, v)` carries `k=v` and,
under every other key, what `l` carries (a value that `l` had under `k` itself
is replaced); and deriving again with a different key `k2` and such a value
`v2` gives a handle that carries both `k=v` and `k2=v2`, and under every other
key what `l` carries. -/
theorem getLoggerWithField_carries (sys : Sys) (st : State) (l : Logger) (k : String)
    (v : Value) (a : Nat) (e : logrus.Entry)
    (hl : l.Entry = some a) (ha : st.heap.entries[a]? = some e) (hv : v.isFunc = false) :
    ∃ st1 l1, l.GetLoggerWithField sys st k v = .ok (st1, l1) ∧
      l1.field st1 k = some v ∧
      (∀ k1, k1 ≠ k → l1.field st1 k1 = l.field st k1) ∧
      (∀ k2 v2, k2 ≠ k → v2.isFunc = false →
        ∃ st2 l2, l1.GetLoggerWithField sys st1 k2 v2 = .ok (st2, l2) ∧
          l2.field st2 k = some v ∧ l2.field st2 k2 = some v2 ∧
          (∀ k1, k1 ≠ k → k1 ≠ k2 → l2.field st2 k1 = l.field st k1)) := by
  obtain ⟨st1, l1, h1, ⟨a1, e1, hl1, ha1⟩, hf1⟩ := getLoggerWithField_step sys st l k v a e hl ha hv
  refine ⟨st1, l1, h1, ?_, ?_, ?_⟩
  · simp [hf1]
  · intro k1 hk1
    rw [hf1, if_neg (fun h => hk1 h.symm)]
  · intro k2 v2 hk2 hv2
    obtain ⟨st2, l2, h2, -, hf2⟩ := getLoggerWithField_step sys st1 l1 k2 v2 a1 e1 hl1 ha1 hv2
    refine ⟨st2, l2, h2, ?_, ?_, ?_⟩
    · rw [hf2, if_neg hk2, hf1, if_pos rfl]
    · rw [hf2, if_pos rfl]
    · intro k1 hk1 hk12
      rw [hf2, if_neg (fun h => hk12 h.symm), hf1, if_neg (fun h => hk1 h.symm)]

/-- Witness of C4 amended: the shared handle of the example state, derived with
`request=r-17` and then with `user=7`. -/
theorem getLoggerWithField_carries_witness :
    ∃ st1 l1, (GetLogger demoState).GetLoggerWithField demoSys demoState "request"
        (Value.str "r-17") = .ok (st1, l1) ∧
      ∃ st2 l2, l1.GetLoggerWithField demoSys st1 "user" (Value.int 7) = .ok (st2, l2) ∧
        l2.field st2 "request" = some (Value.str "r-17") ∧
        l2.field st2 "user" = some (Value.int 7) :=
  match getLoggerWithField_carries demoSys demoState (GetLogger demoState) "request"
      (Value.str "r-17") 0 (sharedEntry 0) rfl rfl rfl with
  | ⟨st1, l1, h1, _, _, h4⟩ =>
    match h4 "user" (Value.int 7) (by decide) rfl with
    | ⟨st2, l2, h2, h3, h5, _⟩ => ⟨st1, l1, h1, st2, l2, h2, h3, h5⟩

/-! ## Initialisation: `init` -/

/-- C6: the log directory of `init` is `filepath.Join(v, "logs/")` when the
variable `cwd` is set to `v`, and `filepath.Join(".", "logs/")` when it is
unset; it is the directory that `init` passes to `os.MkdirAll`, its first call,
and the directory in which the path of the log file lies. -/
theorem init_log_directory (sys : Sys) (st : State) (tr : Trace) :
    logDir sys = (match sys.LookupEnv "cwd" with
      | some v => sys.Join v "logs/"
      | none => sys.Join "." "logs/") ∧
    (init sys st tr).2[tr.length]?
      = some (Event.MkdirAll (logDir sys) 0o755 (sys.MkdirAll tr (logDir sys) 0o755)) ∧
    logFilePath sys tr = sys.Join (logDir sys) ((sys.Now (afterMkdir sys tr)).Format ++ ".log") := by
  exact ⟨rfl, init_first_call sys st tr, rfl⟩

/-- C7, as stated, fails: the mode that `init` passes to `os.OpenFile` (its
second call in the example system) allows the group to write. -/
theorem init_file_mode_allows_group_write :
    ∃ name flag perm err,
      (init demoSys State.start []).2[1]? = some (Event.OpenFile name flag perm err) ∧
      (Perm.ofMode perm).groupWrite = true :=
  ⟨_, _, _, _, rfl, by decide⟩

/-- C7, amended: `init` calls `os.MkdirAll` on the log directory with mode 0755
(owner read, write and execute; group and other read and execute, no write)
and, when that returns no error, `os.OpenFile` on the log file with the flags
create, write-only and append and mode 0664 (owner and group read and write,
other read only, nobody execute). -/
theorem init_modes_and_flags (sys : Sys) (st : State) (tr : Trace) :
    (init sys st tr).2 = tr ++
      (match sys.MkdirAll tr (logDir sys) 0o755 with
       | some e => [Event.MkdirAll (logDir sys) 0o755 (some e)]
       | none => [Event.MkdirAll (logDir sys) 0o755 none,
                  Event.OpenFile (logFilePath sys tr)
                    [OpenFlag.O_CREATE, OpenFlag.O_WRONLY, OpenFlag.O_APPEND] 0o664
                    (openErr sys tr)]) ∧
    Perm.ofMode 0o755 =
      { ownerRead := true, ownerWrite := true, ownerExec := true,
        groupRead := true, groupWrite := false, groupExec := true,
        otherRead := true, otherWrite := false, otherExec := true } ∧
    Perm.ofMode 0o664 =
      { ownerRead := true, ownerWrite := true, ownerExec := false,
        groupRead := true, groupWrite := true, groupExec := false,
        otherRead := true, otherWrite := false, otherExec := false } := by
  exact ⟨init_trace sys st tr, by decide, by decide⟩

/-- C8: `init` panics exactly when `os.MkdirAll` returns an error or
`os.OpenFile` returns an error.  Its first call is `os.MkdirAll` (which creates
missing parents) on the log directory; an error there gives the panic on the
directory, otherwise an error of `os.OpenFile` gives the panic on the file, and
otherwise `init` returns with the logger and the shared entry in place. -/
theorem init_panics_iff (sys : Sys) (st : State) (tr : Trace) :
    (didPanic (init sys st tr).1 = true ↔
      (sys.MkdirAll tr (logDir sys) 0o755 ≠ none ∨ openErr sys tr ≠ none)) ∧
    (init sys st tr).2[tr.length]?
      = some (Event.MkdirAll (logDir sys) 0o755 (sys.MkdirAll tr (logDir sys) 0o755)) ∧
    (init sys st tr).1 =
      (match sys.MkdirAll tr (logDir sys) 0o755 with
       | some e => .error (Panic.cantCreateDir (logDir sys) (some e))
       | none =>
         match openErr sys tr with
         | some e => .error (Panic.failedToOpen (logFilename sys tr) e)
         | none => .ok (initState sys st tr)) := by
  refine ⟨?_, init_first_call sys st tr, ?_⟩
  · rw [init_result]
    cases hmk : sys.MkdirAll tr (logDir sys) 0o755 with
    | some e => simp [didPanic]
    | none => cases hop : openErr sys tr <;> simp [didPanic]
  · rw [init_result]
    cases hmk : sys.MkdirAll tr (logDir sys) 0o755 with
    | some e => rfl
    | none => cases hop : openErr sys tr <;> rfl

/-! ## The shared handle: `GetLogger` -/

/-- C5: after a successful `init`, whatever calls of the package and of its
handles have been made, `GetLogger` returns a handle around the same non-nil
entry: two handles obtained after any two sequences of calls are equal, the
entry they point to and its logger are as `init` left them, and at every level
the hooks of that logger write to the file that `init` opened and then to
standard output. -/
theorem getLogger_returns_shared_entry (sys : Sys) (st0 st : State) (tr0 tr1 : Trace)
    (hinit : init sys st0 tr0 = (.ok st, tr1)) (ops1 ops2 : List Op) :
    GetLogger (run sys ops1 st tr1).1 = GetLogger (run sys ops2 st tr1).1 ∧
    ∃ a e lg, (GetLogger (run sys ops1 st tr1).1).Entry = some a ∧
      (run sys ops1 st tr1).1.heap.entries[a]? = some e ∧
      st.heap.entries[a]? = some e ∧
      (run sys ops1 st tr1).1.heap.loggers[e.Logger]? = some lg ∧
      st.heap.loggers[e.Logger]? = some lg ∧
      ∀ level, (lg.Hooks level).map (fun h => h.Writer)
        = [[Writer.file (logFilePath sys tr0) logFileFlag, Writer.Stdout]] := by
  obtain ⟨hst, -⟩ := init_ok_inv sys st0 st tr0 tr1 hinit
  subst hst
  obtain ⟨h1, h2, h3⟩ := run_keeps_shared sys st0 tr0 ops1 tr1
  obtain ⟨k1, -, -⟩ := run_keeps_shared sys st0 tr0 ops2 tr1
  obtain ⟨-, i2, i3⟩ := run_keeps_shared sys st0 tr0 [] tr1
  refine ⟨?_, st0.heap.entries.length, sharedEntry st0.heap.loggers.length,
    initLogger sys tr0, ?_, h2, i2, h3, i3, ?_⟩
  · simp only [GetLogger, h1, k1]
  · simp only [GetLogger, h1]
  · intro level
    rfl

/-- Witness of C5: the handle obtained after deriving a handle and logging is
the handle obtained right after `init`. -/
theorem getLogger_returns_shared_entry_witness :
    GetLogger (run demoSys [Op.GetLogger,
        Op.GetLoggerWithField (GetLogger demoState) "k" (Value.int 1),
        Op.logCall (GetLogger demoState) logrus.Level.InfoLevel "started"]
        demoState (init demoSys State.start []).2).1
      = GetLogger (run demoSys [] demoState (init demoSys State.start []).2).1 :=
  (getLogger_returns_shared_entry demoSys State.start demoState [] _ rfl _ _).1

/-! ## Log calls on the shared handle -/

/-- C9, as stated, fails: a program that runs `init` on 9 March 2024 and logs
once that day and once on 10 March writes both entries to the file named after
9 March; no file named after 10 March is written. -/
theorem log_calls_on_two_days_share_one_file :
    clockRun.filterMap Event.fileWrite
      = [("./logs//2024-03-09.log", "2024-03-09 first"),
         ("./logs//2024-03-09.log", "2024-03-10 second")] := by
  decide

/-- C9, amended: after a successful `init` and any calls, the shared handle
points to an entry of the logger that `init` built, and so does every handle
derived with `GetLoggerWithField` from a handle that does.  A log call on such
a handle, whatever the clock reads at the call, writes to no file other than
the one `init` opened, whose name is the date of initialisation as
`<YYYY-MM-DD>.log` in the log directory; when the entry renders, its line is
written to that file first. -/
theorem log_call_writes_to_file_of_init (sys : Sys) (st0 st : State) (tr0 tr1 : Trace)
    (hinit : init sys st0 tr0 = (.ok st, tr1)) (ops : List Op) (a : Nat) (e : logrus.Entry)
    (he : (run sys ops st tr1).1.heap.entries[a]? = some e)
    (hlogger : e.Logger = st0.heap.loggers.length)
    (level : logrus.Level) (msg : String) (tr : Trace) :
    ((GetLogger (run sys ops st tr1).1).Entry = some st0.heap.entries.length ∧
      (run sys ops st tr1).1.heap.entries[st0.heap.entries.length]?
        = some (sharedEntry st0.heap.loggers.length) ∧
      (sharedEntry st0.heap.loggers.length).Logger = st0.heap.loggers.length) ∧
    (∀ k v, ∃ st2 l2 a2 e2,
      Logger.GetLoggerWithField sys (run sys ops st tr1).1 { Entry := some a } k v
        = .ok (st2, l2) ∧
      l2.Entry = some a2 ∧ st2.heap.entries[a2]? = some e2 ∧
      e2.Logger = st0.heap.loggers.length) ∧
    (∀ ev ∈ (logrus.Entry.logCall sys (run sys ops st tr1).1.heap a level msg tr).2.drop tr.length,
      ∀ name flag, ev.target = some (Writer.file name flag) →
        name = sys.Join (logDir sys) ((sys.Now (afterMkdir sys tr0)).Format ++ ".log")) ∧
    (∀ line, sys.Format (callEntryOf sys e level msg tr) = .ok line →
      (logrus.Entry.logCall sys (run sys ops st tr1).1.heap a level msg tr).2[tr.length + 1]?
        = some (Event.Write
            (Writer.file (sys.Join (logDir sys) ((sys.Now (afterMkdir sys tr0)).Format ++ ".log"))
              logFileFlag) line
            (sys.Write (tr ++ [Event.Format (callEntryOf sys e level msg tr)])
              (Writer.file
                (sys.Join (logDir sys) ((sys.Now (afterMkdir sys tr0)).Format ++ ".log"))
                logFileFlag) line))) := by
  obtain ⟨hst, -⟩ := init_ok_inv sys st0 st tr0 tr1 hinit
  subst hst
  obtain ⟨h1, h2, h3⟩ := run_keeps_shared sys st0 tr0 ops tr1
  have h3e : (run sys ops (initState sys st0 tr0) tr1).1.heap.loggers[e.Logger]?
      = some (initLogger sys tr0) := by
    rw [hlogger]
    exact h3
  have hlog := belonging_Log sys _ a e tr0 level msg tr he h3e
  have htr := logCall_trace sys (run sys ops (initState sys st0 tr0) tr1).1.heap a level msg tr
  rw [hlog] at htr
  simp only at htr
  obtain ⟨t1, t2⟩ := shared_trace_targets sys tr0 (callEntryOf sys e level msg tr) tr
  refine ⟨⟨by simp only [GetLogger, h1], h2, rfl⟩, ?_, ?_, ?_⟩
  · intro k v
    obtain ⟨ne, hw, hne, -⟩ :=
      WithField_ok sys (run sys ops (initState sys st0 tr0) tr1).1.heap a e k v he
    refine ⟨{ (run sys ops (initState sys st0 tr0) tr1).1 with
        heap := { (run sys ops (initState sys st0 tr0) tr1).1.heap with
          entries := (run sys ops (initState sys st0 tr0) tr1).1.heap.entries ++ [ne] } },
      { Entry := some (run sys ops (initState sys st0 tr0) tr1).1.heap.entries.length },
      (run sys ops (initState sys st0 tr0) tr1).1.heap.entries.length, ne,
      ?_, rfl, ?_, hne.trans hlogger⟩
    · simp only [Logger.GetLoggerWithField, hw]
    · exact getElem?_length_append _ _ _
  · rw [htr]
    exact t1
  · rw [htr]
    exact t2

/-- Witness of C9 amended: the second call of the example run, made on
10 March, writes its line to the file named after 9 March. -/
theorem log_call_writes_to_file_of_init_witness :
    (logrus.Entry.logCall clockSys clockState.heap 0 logrus.Level.InfoLevel "second"
        clockFirst).2[clockFirst.length + 1]?
      = some (Event.Write (Writer.file "./logs//2024-03-09.log" logFileFlag)
          "2024-03-10 second" none) :=
  (log_call_writes_to_file_of_init clockSys State.start clockState [] _ rfl [] 0
    (sharedEntry 0) rfl rfl logrus.Level.InfoLevel "second" clockFirst).2.2.2
    "2024-03-10 second" rfl

/-- C10, as stated, fails: with a log file that refuses the write, `init`
succeeds and an error-level call on the shared handle is not filtered and fires
the hook, yet the hook returns at the failed write to the file and standard
output gets no write at all, so the entry does not reach each sink once. -/
theorem refused_file_write_keeps_line_from_stdout :
    didPanic (init refusingSys State.start []).1 = false ∧
    ((logrus.Entry.logCall refusingSys refusingState.heap 0 logrus.Level.ErrorLevel
        "disk check" (init refusingSys State.start []).2).2.drop 2).countP
      (Event.isWriteTo Writer.Stdout) = 0 ∧
    ((logrus.Entry.logCall refusingSys refusingState.heap 0 logrus.Level.ErrorLevel
        "disk check" (init refusingSys State.start []).2).2.drop 2).countP
      (Event.isWriteTo (Writer.file "./logs//2024-03-09.log" logFileFlag)) = 1 := by
  decide

/-- C10, amended: `hook.Levels` returns the field `LogLevels`.  After a
successful `init`, the shared entry belongs to a logger whose threshold is
`TraceLevel`, whose direct output is `io.Discard`, and whose hooks at every
level are the one hook that `init` registered, with `Levels()` equal to
`AllLevels`; every level passes the threshold.  A log call at any level
therefore fires the hook (the first thing the call does is the rendering of the
entry by the hook) and makes at most one write to the file and at most one to
standard output; and when the rendering and the two writes succeed, it makes
exactly one write of the line to the file and one to standard output, both by
the hook, while the direct output goes to `io.Discard`. -/
theorem shared_logger_fires_hook_at_every_level (sys : Sys) (st0 st : State)
    (tr0 tr1 : Trace) (hinit : init sys st0 tr0 = (.ok st, tr1)) (level : logrus.Level)
    (msg : String) (tr : Trace) :
    (∀ h : hook, h.Levels = h.LogLevels) ∧
    (∃ lg, (GetLogger st).Entry = some st0.heap.entries.length ∧
      st.heap.entries[st0.heap.entries.length]? = some (sharedEntry st0.heap.loggers.length) ∧
      st.heap.loggers[st0.heap.loggers.length]? = some lg ∧
      lg.Level = logrus.Level.TraceLevel ∧ lg.Out = Writer.Discard ∧
      lg.IsLevelEnabled level = true ∧
      lg.Hooks level = [initHook sys tr0] ∧
      (initHook sys tr0).Levels = logrus.AllLevels ∧ level ∈ (initHook sys tr0).Levels) ∧
    (logrus.Entry.logCall sys st.heap st0.heap.entries.length level msg tr).2[tr.length]?
      = some (Event.Format (callEntry sys st0.heap.loggers.length level msg tr)) ∧
    ((logrus.Entry.logCall sys st.heap st0.heap.entries.length level msg tr).2.drop
        tr.length).countP
      (Event.isWriteTo (Writer.file (logFilePath sys tr0) logFileFlag)) ≤ 1 ∧
    ((logrus.Entry.logCall sys st.heap st0.heap.entries.length level msg tr).2.drop
        tr.length).countP (Event.isWriteTo Writer.Stdout) ≤ 1 ∧
    (∀ line, sys.Format (callEntry sys st0.heap.loggers.length level msg tr) = .ok line →
      sys.Write (tr ++ [Event.Format (callEntry sys st0.heap.loggers.length level msg tr)])
        (Writer.file (logFilePath sys tr0) logFileFlag) line = none →
      sys.Write (tr ++ [Event.Format (callEntry sys st0.heap.loggers.length level msg tr),
        Event.Write (Writer.file (logFilePath sys tr0) logFileFlag) line none])
        Writer.Stdout line = none →
      (logrus.Entry.logCall sys st.heap st0.heap.entries.length level msg tr).2 =
        tr ++ [Event.Format (callEntry sys st0.heap.loggers.length level msg tr),
          Event.Write (Writer.file (logFilePath sys tr0) logFileFlag) line none,
          Event.Write Writer.Stdout line none,
          Event.Format (callEntry sys st0.heap.loggers.length level msg tr),
          Event.Write Writer.Discard line none]) := by
  obtain ⟨hst, -⟩ := init_ok_inv sys st0 st tr0 tr1 hinit
  subst hst
  obtain ⟨h1, h2, h3⟩ := run_keeps_shared sys st0 tr0 [] tr1
  simp only [run] at h1 h2 h3
  have hlog := shared_Log sys _ _ _ tr0 level msg tr h2 h3
  have htr := logCall_trace sys (initState sys st0 tr0).heap st0.heap.entries.length level msg tr
  rw [hlog] at htr
  simp only at htr
  obtain ⟨c1, c2, c3⟩ := shared_trace_counts sys tr0
    (callEntry sys st0.heap.loggers.length level msg tr) tr
  refine ⟨fun _ => rfl, ⟨initLogger sys tr0, by simp only [GetLogger, h1], h2, h3, rfl, rfl,
    ?_, rfl, rfl, ?_⟩, ?_, ?_, ?_, ?_⟩
  · cases level <;> rfl
  · cases level <;> simp [initHook, hook.Levels, logrus.AllLevels]
  · rw [htr]
    exact c1
  · rw [htr]
    exact c2
  · rw [htr]
    exact c3
  · intro line hfmt hfile hout
    rw [htr]
    exact shared_trace_ok sys tr0 _ tr line hfmt hfile hout

/-- Witness of C10 amended: an error-level call on the shared handle of the
example state, where the rendering and both writes succeed. -/
theorem shared_logger_fires_hook_at_every_level_witness :
    (logrus.Entry.logCall demoSys demoState.heap 0 logrus.Level.ErrorLevel "disk full" []).2 =
      [Event.Format (callEntry demoSys 0 logrus.Level.ErrorLevel "disk full" []),
        Event.Write (Writer.file "./logs//2024-03-09.log" logFileFlag) "disk full" none,
        Event.Write Writer.Stdout "disk full" none,
        Event.Format (callEntry demoSys 0 logrus.Level.ErrorLevel "disk full" []),
        Event.Write Writer.Discard "disk full" none] :=
  (shared_logger_fires_hook_at_every_level demoSys State.start demoState [] _ rfl
    logrus.Level.ErrorLevel "disk full" []).2.2.2.2.2 "disk full" rfl rfl rfl

end Logging
